import Mathlib

/-!
# Verification of the skladisce inventory store

Shallow embedding of the inventory/transfer engine of `internal/store`
(`CreateTransfer`, `AddStock`, `AdjustInventory`, `DeleteOwner`) over
list-modelled SQL tables, together with proofs of the specified
functional-correctness, invariant and error-handling properties.

Tables are modelled as lists of rows; each SQL statement used by the store
is modelled by a list operation with the same semantics (`SELECT ... WHERE`
by `List.find?`, `DELETE` by `List.filter`, `UPDATE` by `List.map`,
`INSERT ... ON CONFLICT DO UPDATE` by a conditional map/append).
Go `int`/`int64` values are modelled by `Int` (the spec notes overflow is
out of scope at this system's scale). A transaction that fails rolls back,
so a failing operation is modelled as returning `Except.error` and the
`...Step` wrappers keep the pre-state in that case.
-/

namespace Skladisce

/-- A row of the `inventory` table: quantity of one item held by one owner.
Schema: `PRIMARY KEY (item_id, owner_id)`, `CHECK (quantity > 0)`. -/
structure InvRow where
  item : Int
  owner : Int
  qty : Int
  deriving DecidableEq, Repr

/-- A row of the `owners` table (`model.Owner`): `otype` is the `type`
column, constrained to `person` or `location`; `deletedAt` models the
nullable `deleted_at` timestamp. -/
structure Owner where
  id : Int
  name : String
  otype : String
  deletedAt : Option Nat
  deriving DecidableEq, Repr

/-- A row of the `transfers` audit table (`model.Transfer`), without the
auto-increment id and timestamp columns, which no claim mentions. -/
structure Transfer where
  item : Int
  fromOwner : Int
  toOwner : Int
  qty : Int
  note : String
  transferredBy : Option Int
  deriving DecidableEq, Repr

/-- The store state: the three tables the claims are about. -/
structure DB where
  owners : List Owner
  inventory : List InvRow
  transfers : List Transfer
  deriving DecidableEq, Repr

/-- Domain errors raised by the store functions (each constructor is one
`fmt.Errorf` site in the Go code). -/
inductive StoreErr where
  | selfTransfer
  | invalidQuantity
  | insufficientQuantity
  | zeroDelta
  | invalidAdjustment
  | notFound
  | ownerVariantMismatch
  | ownerHasInventory
  deriving DecidableEq, Repr

/-- The `WHERE item_id = ? AND owner_id = ?` predicate on inventory rows. -/
def keyMatch (item owner : Int) (r : InvRow) : Bool :=
  r.item == item && r.owner == owner

/-- `SELECT COALESCE(quantity, 0) FROM inventory WHERE item_id = ? AND
owner_id = ?`, with the `sql.ErrNoRows` branch mapping an absent row
to 0 (as in `CreateTransfer` and `AdjustInventory`). -/
def getQty (inv : List InvRow) (item owner : Int) : Int :=
  match inv.find? (keyMatch item owner) with
  | some r => r.qty
  | none => 0

/-- Whether a holding row for `(item, owner)` is present. -/
def hasRow (inv : List InvRow) (item owner : Int) : Bool :=
  inv.any (keyMatch item owner)

/-- `DELETE FROM inventory WHERE item_id = ? AND owner_id = ?`. -/
def deleteRow (inv : List InvRow) (item owner : Int) : List InvRow :=
  inv.filter (fun r => !(keyMatch item owner r))

/-- `UPDATE inventory SET quantity = ? WHERE item_id = ? AND owner_id = ?`. -/
def updateRow (inv : List InvRow) (item owner : Int) (q : Int) : List InvRow :=
  inv.map (fun r => if keyMatch item owner r then { r with qty := q } else r)

/-- `INSERT INTO inventory (item_id, owner_id, quantity) VALUES (?, ?, ?)
ON CONFLICT (item_id, owner_id) DO UPDATE SET quantity = quantity + ?`:
adds to the conflicting row when the key is present, else appends. -/
def upsertAdd (inv : List InvRow) (item owner : Int) (q : Int) : List InvRow :=
  if hasRow inv item owner then
    inv.map (fun r => if keyMatch item owner r then { r with qty := r.qty + q } else r)
  else
    inv ++ [⟨item, owner, q⟩]

/-- Plain `INSERT INTO inventory (item_id, owner_id, quantity) VALUES
(?, ?, ?)`, executed by `AdjustInventory` only in its `current == 0`
branch, where the primary key on `(item_id, owner_id)` guarantees no
conflicting row exists. -/
def insertRow (inv : List InvRow) (item owner : Int) (q : Int) : List InvRow :=
  inv ++ [⟨item, owner, q⟩]

/-- `SELECT type FROM owners WHERE id = ? AND deleted_at IS NULL`
(the owner row, if present and not soft-deleted). -/
def findActiveOwner (owners : List Owner) (id : Int) : Option Owner :=
  owners.find? (fun o => o.id == id && o.deletedAt == none)

/-- `SELECT COUNT(*) FROM inventory WHERE owner_id = ?`. -/
def ownerInvCount (inv : List InvRow) (id : Int) : Nat :=
  (inv.filter (fun r => r.owner == id)).length

/-- `store.CreateTransfer`: validates, decrements/deletes the source
holding, upserts the destination holding, and appends one audit row, all
in one transaction (rollback on any failure). -/
def createTransfer (db : DB) (itemID fromOwnerID toOwnerID : Int) (quantity : Int)
    (note : String) (transferredBy : Option Int) : Except StoreErr (DB × Transfer) :=
  if fromOwnerID = toOwnerID then .error .selfTransfer
  else if quantity ≤ 0 then .error .invalidQuantity
  else
    let available := getQty db.inventory itemID fromOwnerID
    if available < quantity then .error .insufficientQuantity
    else
      let newQty := available - quantity
      let inv1 :=
        if newQty = 0 then deleteRow db.inventory itemID fromOwnerID
        else updateRow db.inventory itemID fromOwnerID newQty
      let inv2 := upsertAdd inv1 itemID toOwnerID quantity
      let t : Transfer :=
        ⟨itemID, fromOwnerID, toOwnerID, quantity, note, transferredBy⟩
      .ok ({ db with inventory := inv2, transfers := db.transfers ++ [t] }, t)

/-- `store.AddStock`: validates the quantity, requires the owner to be an
existing, non-deleted `location`, then upserts the holding. The
`userID` argument is accepted and unused, as in the Go function. -/
def addStock (db : DB) (itemID ownerID : Int) (quantity : Int)
    (userID : Option Int) : Except StoreErr DB :=
  if quantity ≤ 0 then .error .invalidQuantity
  else
    match findActiveOwner db.owners ownerID with
    | none => .error .notFound
    | some o =>
      if o.otype ≠ "location" then .error .ownerVariantMismatch
      else .ok { db with inventory := upsertAdd db.inventory itemID ownerID quantity }

/-- `store.AdjustInventory`: rejects a zero delta, reads the current
quantity (0 when the row is absent), rejects a negative result, then
deletes / inserts / updates the holding row. The `note` and `userID`
arguments are accepted and unused, as in the Go function. -/
def adjustInventory (db : DB) (itemID ownerID : Int) (delta : Int)
    (note : String) (userID : Option Int) : Except StoreErr DB :=
  if delta = 0 then .error .zeroDelta
  else
    let current := getQty db.inventory itemID ownerID
    let newQty := current + delta
    if newQty < 0 then .error .invalidAdjustment
    else if newQty = 0 then
      .ok { db with inventory := deleteRow db.inventory itemID ownerID }
    else if current = 0 then
      .ok { db with inventory := insertRow db.inventory itemID ownerID newQty }
    else
      .ok { db with inventory := updateRow db.inventory itemID ownerID newQty }

/-- `store.DeleteOwner`: fails if any inventory row references the owner,
else soft-deletes via `UPDATE owners SET deleted_at = CURRENT_TIMESTAMP
WHERE id = ? AND deleted_at IS NULL`; `now` models `CURRENT_TIMESTAMP`. -/
def deleteOwner (db : DB) (id : Int) (now : Nat) : Except StoreErr DB :=
  if ownerInvCount db.inventory id > 0 then .error .ownerHasInventory
  else
    .ok { db with owners := db.owners.map (fun o =>
      if o.id == id && o.deletedAt == none then { o with deletedAt := some now } else o) }

/-- The state after running `CreateTransfer`: the new state on success, the
unchanged pre-state on failure (the transaction rolls back). -/
def transferStep (db : DB) (itemID fromOwnerID toOwnerID : Int) (quantity : Int)
    (note : String) (transferredBy : Option Int) : DB :=
  match createTransfer db itemID fromOwnerID toOwnerID quantity note transferredBy with
  | .ok (db', _) => db'
  | .error _ => db

/-- The state after running `AddStock` (pre-state kept on failure). -/
def addStockStep (db : DB) (itemID ownerID : Int) (quantity : Int)
    (userID : Option Int) : DB :=
  match addStock db itemID ownerID quantity userID with
  | .ok db' => db'
  | .error _ => db

/-- The state after running `AdjustInventory` (pre-state kept on failure). -/
def adjustStep (db : DB) (itemID ownerID : Int) (delta : Int)
    (note : String) (userID : Option Int) : DB :=
  match adjustInventory db itemID ownerID delta note userID with
  | .ok db' => db'
  | .error _ => db

/-- The state after running `DeleteOwner` (pre-state kept on failure). -/
def deleteOwnerStep (db : DB) (id : Int) (now : Nat) : DB :=
  match deleteOwner db id now with
  | .ok db' => db'
  | .error _ => db

/-- The `(item_id, owner_id)` primary-key value of an inventory row. -/
def keyOf (r : InvRow) : Int × Int := (r.item, r.owner)

/-- The schema constraints on the `inventory` table: every stored quantity
is positive (`CHECK (quantity > 0)`) and keys are unique
(`PRIMARY KEY (item_id, owner_id)`). -/
def InvOk (inv : List InvRow) : Prop :=
  (∀ r ∈ inv, 0 < r.qty) ∧ (inv.map keyOf).Nodup

instance : DecidablePred InvOk := fun inv =>
  inferInstanceAs (Decidable (_ ∧ _))

/-- One invocation of an inventory-mutating store operation, successful or
failed (a failed invocation keeps the state unchanged). -/
inductive OpStep : DB → DB → Prop where
  | add : ∀ db i o q u, OpStep db (addStockStep db i o q u)
  | adjust : ∀ db i o d n u, OpStep db (adjustStep db i o d n u)
  | transfer : ∀ db i f t q n u, OpStep db (transferStep db i f t q n u)

/-- States reachable from an empty ledger (any owners/audit rows, no
holding rows) by `AddStock`, `AdjustInventory` and `CreateTransfer`. -/
inductive Reachable : DB → Prop where
  | init : ∀ db, db.inventory = [] → Reachable db
  | step : ∀ db db', Reachable db → OpStep db db' → Reachable db'

/-- Total quantity of one item over all owners:
`SELECT SUM(quantity) FROM inventory WHERE item_id = ?` (0 when empty). -/
def itemTotal (inv : List InvRow) (i : Int) : Int :=
  (inv.map (fun r => if r.item = i then r.qty else 0)).sum

/-- Arguments of one `CreateTransfer` call. -/
structure TransferReq where
  item : Int
  src : Int
  dst : Int
  qty : Int
  note : String
  actor : Option Int

/-- Runs a sequence of `CreateTransfer` calls, requiring every one of them
to succeed. -/
def transferChain (db : DB) : List TransferReq → Option DB
  | [] => some db
  | a :: rest =>
    match createTransfer db a.item a.src a.dst a.qty a.note a.actor with
    | .ok (db', _) => transferChain db' rest
    | .error _ => none

/-! ### Basic lemmas about the table operations -/

theorem keyMatch_iff {i o : Int} {r : InvRow} :
    keyMatch i o r = true ↔ r.item = i ∧ r.owner = o := by
  simp [keyMatch]

theorem keyMatch_keyOf {i o : Int} {r : InvRow} :
    keyMatch i o r = true ↔ keyOf r = (i, o) := by
  simp [keyMatch, keyOf, Prod.ext_iff]

theorem getQty_nil (i o : Int) : getQty [] i o = 0 := rfl

theorem getQty_cons {r : InvRow} {l : List InvRow} {i o : Int} :
    getQty (r :: l) i o = if keyMatch i o r = true then r.qty else getQty l i o := by
  by_cases h : keyMatch i o r = true
  · simp [getQty, List.find?_cons_of_pos _ h, h]
  · simp [getQty, List.find?_cons_of_neg _ h, h]

theorem hasRow_nil (i o : Int) : hasRow [] i o = false := rfl

theorem hasRow_cons {r : InvRow} {l : List InvRow} {i o : Int} :
    hasRow (r :: l) i o = (keyMatch i o r || hasRow l i o) := by
  simp [hasRow]

theorem deleteRow_cons {r : InvRow} {l : List InvRow} {i o : Int} :
    deleteRow (r :: l) i o =
      if keyMatch i o r = true then deleteRow l i o else r :: deleteRow l i o := by
  by_cases h : keyMatch i o r = true <;> simp [deleteRow, List.filter_cons, h]

theorem updateRow_cons {r : InvRow} {l : List InvRow} {i o q : Int} :
    updateRow (r :: l) i o q =
      (if keyMatch i o r = true then { r with qty := q } else r) :: updateRow l i o q := by
  by_cases h : keyMatch i o r = true <;> simp [updateRow, h]

theorem getQty_eq_zero_of_hasRow_false {inv : List InvRow} {i o : Int}
    (h : hasRow inv i o = false) : getQty inv i o = 0 := by
  have h' : inv.find? (keyMatch i o) = none :=
    List.find?_eq_none.mpr (by simpa [hasRow, List.any_eq_false] using h)
  simp [getQty, h']

theorem hasRow_of_getQty_ne_zero {inv : List InvRow} {i o : Int}
    (h : getQty inv i o ≠ 0) : hasRow inv i o = true := by
  by_contra hc
  exact h (getQty_eq_zero_of_hasRow_false (by simpa using hc))

theorem hasRow_false_of_getQty_zero {inv : List InvRow} {i o : Int}
    (hpos : ∀ r ∈ inv, 0 < r.qty) (h : getQty inv i o = 0) :
    hasRow inv i o = false := by
  by_contra hc
  have hc' : hasRow inv i o = true := by simpa using hc
  obtain ⟨r, hr⟩ : ∃ r, inv.find? (keyMatch i o) = some r := by
    have hs : (inv.find? (keyMatch i o)).isSome := by
      rw [List.find?_isSome]
      simpa [hasRow, List.any_eq_true] using hc'
    exact Option.isSome_iff_exists.mp hs
  have hmem := List.mem_of_find?_eq_some hr
  have hq : getQty inv i o = r.qty := by simp [getQty, hr]
  have := hpos r hmem
  omega

theorem hasRow_false_iff_key_not_mem {inv : List InvRow} {i o : Int} :
    hasRow inv i o = false ↔ (i, o) ∉ inv.map keyOf := by
  constructor
  · intro h hmem
    rcases List.mem_map.mp hmem with ⟨r, hr, hk⟩
    have hmatch : keyMatch i o r = true := keyMatch_keyOf.mpr hk
    have := List.any_eq_false.mp (by simpa [hasRow] using h) r hr
    exact this hmatch
  · intro h
    rw [hasRow, List.any_eq_false]
    intro r hr hmatch
    exact h (List.mem_map.mpr ⟨r, hr, keyMatch_keyOf.mp hmatch⟩)

theorem deleteRow_eq_self_of_hasRow_false {inv : List InvRow} {i o : Int}
    (h : hasRow inv i o = false) : deleteRow inv i o = inv := by
  rw [deleteRow, List.filter_eq_self]
  intro r hr
  have := List.any_eq_false.mp (by simpa [hasRow] using h) r hr
  simpa using this

theorem map_keyMatch_eq_self {inv : List InvRow} {i o : Int} {g : InvRow → InvRow}
    (h : hasRow inv i o = false) :
    inv.map (fun r => if keyMatch i o r = true then g r else r) = inv := by
  induction inv with
  | nil => rfl
  | cons r l ih =>
    rw [hasRow_cons, Bool.or_eq_false_iff] at h
    simp [h.1, ih h.2]

theorem keyMatch_false_of_ne {i o i' o' : Int} {r : InvRow}
    (h : (i, o) ≠ (i', o')) (hm : keyMatch i o r = true) :
    keyMatch i' o' r = false := by
  rcases keyMatch_iff.mp hm with ⟨e1, e2⟩
  by_contra hc
  rcases keyMatch_iff.mp (by simpa using hc) with ⟨e1', e2'⟩
  exact h (by rw [← e1, ← e2, e1', e2'])

/-! ### Lemmas about `deleteRow` -/

theorem hasRow_deleteRow_self {inv : List InvRow} {i o : Int} :
    hasRow (deleteRow inv i o) i o = false := by
  rw [hasRow, List.any_eq_false]
  intro r hr
  have := (List.mem_filter.mp hr).2
  simpa using this

theorem getQty_deleteRow_self {inv : List InvRow} {i o : Int} :
    getQty (deleteRow inv i o) i o = 0 :=
  getQty_eq_zero_of_hasRow_false hasRow_deleteRow_self

theorem getQty_deleteRow_of_ne {inv : List InvRow} {i o i' o' : Int}
    (h : (i, o) ≠ (i', o')) :
    getQty (deleteRow inv i o) i' o' = getQty inv i' o' := by
  induction inv with
  | nil => rfl
  | cons r l ih =>
    rw [deleteRow_cons]
    by_cases h1 : keyMatch i o r = true
    · rw [if_pos h1, ih, getQty_cons, keyMatch_false_of_ne h h1]
      simp
    · rw [if_neg h1, getQty_cons, getQty_cons, ih]

theorem hasRow_deleteRow_of_ne {inv : List InvRow} {i o i' o' : Int}
    (h : (i, o) ≠ (i', o')) :
    hasRow (deleteRow inv i o) i' o' = hasRow inv i' o' := by
  induction inv with
  | nil => rfl
  | cons r l ih =>
    rw [deleteRow_cons]
    by_cases h1 : keyMatch i o r = true
    · rw [if_pos h1, ih, hasRow_cons, keyMatch_false_of_ne h h1]
      simp
    · rw [if_neg h1, hasRow_cons, hasRow_cons, ih]

/-! ### Lemmas about `updateRow` -/

theorem hasRow_updateRow {inv : List InvRow} {i o q i' o' : Int} :
    hasRow (updateRow inv i o q) i' o' = hasRow inv i' o' := by
  induction inv with
  | nil => rfl
  | cons r l ih =>
    rw [updateRow_cons, hasRow_cons, hasRow_cons, ih]
    by_cases h1 : keyMatch i o r = true
    · rw [if_pos h1]
      simp [keyMatch]
    · rw [if_neg h1]

theorem getQty_updateRow_self {inv : List InvRow} {i o q : Int}
    (h : hasRow inv i o = true) :
    getQty (updateRow inv i o q) i o = q := by
  induction inv with
  | nil => simp [hasRow_nil] at h
  | cons r l ih =>
    by_cases h1 : keyMatch i o r = true
    · rw [updateRow_cons, if_pos h1, getQty_cons]
      have h2 : keyMatch i o ({ r with qty := q } : InvRow) = true := by
        simpa [keyMatch] using h1
      rw [if_pos h2]
    · rw [updateRow_cons, if_neg h1, getQty_cons, if_neg h1]
      rw [hasRow_cons] at h
      rcases (by simpa using h : keyMatch i o r = true ∨ hasRow l i o = true) with hk | hl
      · exact absurd hk h1
      · exact ih hl

theorem getQty_updateRow_of_ne {inv : List InvRow} {i o q i' o' : Int}
    (h : (i, o) ≠ (i', o')) :
    getQty (updateRow inv i o q) i' o' = getQty inv i' o' := by
  induction inv with
  | nil => rfl
  | cons r l ih =>
    by_cases h1 : keyMatch i o r = true
    · rw [updateRow_cons, if_pos h1, getQty_cons, getQty_cons, ih,
        keyMatch_false_of_ne h h1]
      have h2 : keyMatch i' o' ({ r with qty := q } : InvRow) = false := by
        have := keyMatch_false_of_ne h h1
        simpa [keyMatch] using this
      rw [h2]
      simp
    · rw [updateRow_cons, if_neg h1, getQty_cons, getQty_cons, ih]

/-! ### Lemmas about `upsertAdd` and `insertRow` -/

theorem hasRow_mapRow {inv : List InvRow} {i o i' o' : Int} {g : InvRow → InvRow}
    (hg : ∀ r, (g r).item = r.item ∧ (g r).owner = r.owner) :
    hasRow (inv.map (fun r => if keyMatch i o r = true then g r else r)) i' o'
      = hasRow inv i' o' := by
  induction inv with
  | nil => rfl
  | cons r l ih =>
    rw [List.map_cons, hasRow_cons, hasRow_cons, ih]
    by_cases h1 : keyMatch i o r = true
    · rw [if_pos h1]
      simp [keyMatch, (hg r).1, (hg r).2]
    · rw [if_neg h1]

theorem getQty_addMap_self {inv : List InvRow} {i o q : Int}
    (h : hasRow inv i o = true) :
    getQty (inv.map (fun r =>
        if keyMatch i o r = true then { r with qty := r.qty + q } else r)) i o
      = getQty inv i o + q := by
  induction inv with
  | nil => simp [hasRow_nil] at h
  | cons r l ih =>
    by_cases h1 : keyMatch i o r = true
    · rw [List.map_cons, if_pos h1, getQty_cons, getQty_cons, if_pos h1]
      have h2 : keyMatch i o ({ r with qty := r.qty + q } : InvRow) = true := by
        simpa [keyMatch] using h1
      rw [if_pos h2]
    · rw [List.map_cons, if_neg h1, getQty_cons, getQty_cons, if_neg h1, if_neg h1]
      rw [hasRow_cons] at h
      rcases (by simpa using h : keyMatch i o r = true ∨ hasRow l i o = true) with hk | hl
      · exact absurd hk h1
      · exact ih hl

theorem getQty_addMap_of_ne {inv : List InvRow} {i o q i' o' : Int}
    (h : (i, o) ≠ (i', o')) :
    getQty (inv.map (fun r =>
        if keyMatch i o r = true then { r with qty := r.qty + q } else r)) i' o'
      = getQty inv i' o' := by
  induction inv with
  | nil => rfl
  | cons r l ih =>
    by_cases h1 : keyMatch i o r = true
    · rw [List.map_cons, if_pos h1, getQty_cons, getQty_cons, ih,
        keyMatch_false_of_ne h h1]
      have h2 : keyMatch i' o' ({ r with qty := r.qty + q } : InvRow) = false := by
        have := keyMatch_false_of_ne h h1
        simpa [keyMatch] using this
      rw [h2]
      simp
    · rw [List.map_cons, if_neg h1, getQty_cons, getQty_cons, ih]

theorem getQty_append_single_self {inv : List InvRow} {i o q : Int}
    (h : hasRow inv i o = false) :
    getQty (inv ++ [⟨i, o, q⟩]) i o = q := by
  induction inv with
  | nil =>
    rw [List.nil_append, getQty_cons]
    simp [keyMatch]
  | cons r l ih =>
    rw [hasRow_cons, Bool.or_eq_false_iff] at h
    rw [List.cons_append, getQty_cons, h.1]
    simpa using ih h.2

theorem getQty_append_single_of_ne {inv : List InvRow} {i o q i' o' : Int}
    (h : (i, o) ≠ (i', o')) :
    getQty (inv ++ [⟨i, o, q⟩]) i' o' = getQty inv i' o' := by
  induction inv with
  | nil =>
    rw [List.nil_append, getQty_cons,
      keyMatch_false_of_ne h (by simp [keyMatch])]
    simp
  | cons r l ih => rw [List.cons_append, getQty_cons, getQty_cons, ih]

theorem getQty_upsertAdd_self {inv : List InvRow} {i o q : Int} :
    getQty (upsertAdd inv i o q) i o = getQty inv i o + q := by
  rw [upsertAdd]
  by_cases h : hasRow inv i o = true
  · rw [if_pos h, getQty_addMap_self h]
  · have hf : hasRow inv i o = false := by simpa using h
    rw [if_neg h, getQty_append_single_self hf, getQty_eq_zero_of_hasRow_false hf]
    ring

theorem getQty_upsertAdd_of_ne {inv : List InvRow} {i o q i' o' : Int}
    (h : (i, o) ≠ (i', o')) :
    getQty (upsertAdd inv i o q) i' o' = getQty inv i' o' := by
  rw [upsertAdd]
  by_cases hr : hasRow inv i o = true
  · rw [if_pos hr, getQty_addMap_of_ne h]
  · rw [if_neg hr, getQty_append_single_of_ne h]

theorem hasRow_append_single {inv : List InvRow} {i o q i' o' : Int} :
    hasRow (inv ++ [⟨i, o, q⟩]) i' o'
      = (hasRow inv i' o' || keyMatch i' o' ⟨i, o, q⟩) := by
  simp [hasRow, List.any_append]

theorem hasRow_upsertAdd_self {inv : List InvRow} {i o q : Int} :
    hasRow (upsertAdd inv i o q) i o = true := by
  rw [upsertAdd]
  by_cases h : hasRow inv i o = true
  · rw [if_pos h]
    rw [hasRow_mapRow (g := fun r => { r with qty := r.qty + q }) (by intro r; exact ⟨rfl, rfl⟩)]
    exact h
  · rw [if_neg h, hasRow_append_single]
    simp [keyMatch]

theorem hasRow_upsertAdd_of_ne {inv : List InvRow} {i o q i' o' : Int}
    (h : (i, o) ≠ (i', o')) :
    hasRow (upsertAdd inv i o q) i' o' = hasRow inv i' o' := by
  rw [upsertAdd]
  by_cases hr : hasRow inv i o = true
  · rw [if_pos hr]
    rw [hasRow_mapRow (g := fun r => { r with qty := r.qty + q }) (by intro r; exact ⟨rfl, rfl⟩)]
  · rw [if_neg hr, hasRow_append_single, keyMatch_false_of_ne h (by simp [keyMatch])]
    simp

/-! ### Key uniqueness and positivity preservation -/

theorem keys_mapRow {inv : List InvRow} {i o : Int} {g : InvRow → InvRow}
    (hg : ∀ r, keyOf (g r) = keyOf r) :
    (inv.map (fun r => if keyMatch i o r = true then g r else r)).map keyOf
      = inv.map keyOf := by
  induction inv with
  | nil => rfl
  | cons r l ih =>
    simp only [List.map_cons, ih]
    by_cases h1 : keyMatch i o r = true
    · rw [if_pos h1, hg]
    · rw [if_neg h1]

theorem nodup_keys_deleteRow {inv : List InvRow} {i o : Int}
    (h : (inv.map keyOf).Nodup) : ((deleteRow inv i o).map keyOf).Nodup :=
  List.Nodup.sublist (List.Sublist.map keyOf (List.filter_sublist inv)) h

theorem nodup_keys_updateRow {inv : List InvRow} {i o q : Int}
    (h : (inv.map keyOf).Nodup) : ((updateRow inv i o q).map keyOf).Nodup := by
  rw [updateRow, keys_mapRow (g := fun r => { r with qty := q }) (fun r => rfl)]
  exact h

theorem nodup_keys_upsertAdd {inv : List InvRow} {i o q : Int}
    (h : (inv.map keyOf).Nodup) : ((upsertAdd inv i o q).map keyOf).Nodup := by
  rw [upsertAdd]
  by_cases hr : hasRow inv i o = true
  · rw [if_pos hr, keys_mapRow (g := fun r => { r with qty := r.qty + q }) (fun r => rfl)]
    exact h
  · rw [if_neg hr]
    have hk : (i, o) ∉ inv.map keyOf :=
      hasRow_false_iff_key_not_mem.mp (by simpa using hr)
    simp only [List.map_append, List.map_cons, List.map_nil]
    rw [List.nodup_append]
    refine ⟨h, List.nodup_singleton _, ?_⟩
    intro a ha hb
    have hab : a = (i, o) := by simpa [keyOf] using hb
    exact hk (hab ▸ ha)

theorem pos_deleteRow {inv : List InvRow} {i o : Int}
    (h : ∀ r ∈ inv, 0 < r.qty) : ∀ r ∈ deleteRow inv i o, 0 < r.qty :=
  fun r hr => h r (List.mem_of_mem_filter hr)

theorem pos_updateRow {inv : List InvRow} {i o q : Int} (hq : 0 < q)
    (h : ∀ r ∈ inv, 0 < r.qty) : ∀ r ∈ updateRow inv i o q, 0 < r.qty := by
  intro r hr
  rcases List.mem_map.mp hr with ⟨s, hs, rfl⟩
  by_cases hm : keyMatch i o s = true
  · simpa [hm] using hq
  · simpa [hm] using h s hs

theorem pos_upsertAdd {inv : List InvRow} {i o q : Int} (hq : 0 < q)
    (h : ∀ r ∈ inv, 0 < r.qty) : ∀ r ∈ upsertAdd inv i o q, 0 < r.qty := by
  intro r hr
  rw [upsertAdd] at hr
  by_cases hb : hasRow inv i o = true
  · rw [if_pos hb] at hr
    rcases List.mem_map.mp hr with ⟨s, hs, rfl⟩
    have hpos := h s hs
    by_cases hm : keyMatch i o s = true
    · rw [if_pos hm]
      show 0 < s.qty + q
      omega
    · simpa [hm] using hpos
  · rw [if_neg hb] at hr
    rcases List.mem_append.mp hr with h1 | h1
    · exact h r h1
    · have hr1 : r = ⟨i, o, q⟩ := by simpa using h1
      rw [hr1]
      exact hq

theorem pos_insertRow {inv : List InvRow} {i o q : Int} (hq : 0 < q)
    (h : ∀ r ∈ inv, 0 < r.qty) : ∀ r ∈ insertRow inv i o q, 0 < r.qty := by
  intro r hr
  rcases List.mem_append.mp hr with h1 | h1
  · exact h r h1
  · have hr1 : r = ⟨i, o, q⟩ := by simpa using h1
    rw [hr1]
    exact hq

theorem invOk_deleteRow {inv : List InvRow} {i o : Int} (h : InvOk inv) :
    InvOk (deleteRow inv i o) :=
  ⟨pos_deleteRow h.1, nodup_keys_deleteRow h.2⟩

theorem invOk_updateRow {inv : List InvRow} {i o q : Int} (hq : 0 < q)
    (h : InvOk inv) : InvOk (updateRow inv i o q) :=
  ⟨pos_updateRow hq h.1, nodup_keys_updateRow h.2⟩

theorem invOk_upsertAdd {inv : List InvRow} {i o q : Int} (hq : 0 < q)
    (h : InvOk inv) : InvOk (upsertAdd inv i o q) :=
  ⟨pos_upsertAdd hq h.1, nodup_keys_upsertAdd h.2⟩

theorem invOk_insertRow {inv : List InvRow} {i o q : Int} (hq : 0 < q)
    (hr : hasRow inv i o = false) (h : InvOk inv) :
    InvOk (insertRow inv i o q) := by
  refine ⟨pos_insertRow hq h.1, ?_⟩
  rw [insertRow]
  simp only [List.map_append, List.map_cons, List.map_nil]
  rw [List.nodup_append]
  refine ⟨h.2, List.nodup_singleton _, ?_⟩
  intro a ha hb
  have hab : a = (i, o) := by simpa [keyOf] using hb
  exact (hasRow_false_iff_key_not_mem.mp hr) (hab ▸ ha)

/-! ### Failure and success characterizations of the store operations -/

theorem createTransfer_self {db : DB} {i f t q : Int} {n : String} {a : Option Int}
    (h : f = t) : createTransfer db i f t q n a = .error .selfTransfer := by
  simp [createTransfer, h]

theorem createTransfer_invalidQuantity {db : DB} {i f t q : Int} {n : String}
    {a : Option Int} (hne : f ≠ t) (hq : q ≤ 0) :
    createTransfer db i f t q n a = .error .invalidQuantity := by
  simp [createTransfer, hne, hq]

theorem createTransfer_insufficient {db : DB} {i f t q : Int} {n : String}
    {a : Option Int} (hne : f ≠ t) (hq : 0 < q)
    (hav : getQty db.inventory i f < q) :
    createTransfer db i f t q n a = .error .insufficientQuantity := by
  simp [createTransfer, hne, not_le.mpr hq, hav]

theorem createTransfer_ok {db : DB} {i f t q : Int} {n : String} {a : Option Int}
    (hne : f ≠ t) (hq : 0 < q) (hav : q ≤ getQty db.inventory i f) :
    createTransfer db i f t q n a =
      .ok ({ db with
          inventory := upsertAdd
            (if getQty db.inventory i f - q = 0
              then deleteRow db.inventory i f
              else updateRow db.inventory i f (getQty db.inventory i f - q))
            i t q,
          transfers := db.transfers ++ [⟨i, f, t, q, n, a⟩] },
        ⟨i, f, t, q, n, a⟩) := by
  simp [createTransfer, hne, not_le.mpr hq, not_lt.mpr hav]

theorem createTransfer_ok_conds {db : DB} {i f t q : Int} {n : String}
    {a : Option Int} {db' : DB} {tr : Transfer}
    (h : createTransfer db i f t q n a = .ok (db', tr)) :
    f ≠ t ∧ 0 < q ∧ q ≤ getQty db.inventory i f := by
  by_cases h1 : f = t
  · rw [createTransfer_self h1] at h
    exact Except.noConfusion h
  by_cases h2 : q ≤ 0
  · rw [createTransfer_invalidQuantity h1 h2] at h
    exact Except.noConfusion h
  by_cases h3 : getQty db.inventory i f < q
  · rw [createTransfer_insufficient h1 (not_le.mp h2) h3] at h
    exact Except.noConfusion h
  · exact ⟨h1, not_le.mp h2, not_lt.mp h3⟩

theorem createTransfer_ok_shape {db : DB} {i f t q : Int} {n : String}
    {a : Option Int} {db' : DB} {tr : Transfer}
    (h : createTransfer db i f t q n a = .ok (db', tr)) :
    f ≠ t ∧ 0 < q ∧ q ≤ getQty db.inventory i f ∧
    tr = ⟨i, f, t, q, n, a⟩ ∧
    db'.owners = db.owners ∧
    db'.transfers = db.transfers ++ [⟨i, f, t, q, n, a⟩] ∧
    db'.inventory = upsertAdd
      (if getQty db.inventory i f - q = 0
        then deleteRow db.inventory i f
        else updateRow db.inventory i f (getQty db.inventory i f - q)) i t q := by
  obtain ⟨h1, h2, h3⟩ := createTransfer_ok_conds h
  rw [createTransfer_ok h1 h2 h3] at h
  injection h with h'
  injection h' with ha hb
  subst ha
  subst hb
  exact ⟨h1, h2, h3, rfl, rfl, rfl, rfl⟩

theorem addStock_invalidQuantity {db : DB} {i o q : Int} {u : Option Int}
    (h : q ≤ 0) : addStock db i o q u = .error .invalidQuantity := by
  simp [addStock, h]

theorem addStock_notFound {db : DB} {i o q : Int} {u : Option Int} (hq : 0 < q)
    (h : findActiveOwner db.owners o = none) :
    addStock db i o q u = .error .notFound := by
  simp [addStock, not_le.mpr hq, h]

theorem addStock_variantMismatch {db : DB} {i o q : Int} {u : Option Int}
    {ow : Owner} (hq : 0 < q) (h : findActiveOwner db.owners o = some ow)
    (ht : ow.otype ≠ "location") :
    addStock db i o q u = .error .ownerVariantMismatch := by
  simp [addStock, not_le.mpr hq, h, ht]

theorem addStock_ok {db : DB} {i o q : Int} {u : Option Int} {ow : Owner}
    (hq : 0 < q) (h : findActiveOwner db.owners o = some ow)
    (ht : ow.otype = "location") :
    addStock db i o q u =
      .ok { db with inventory := upsertAdd db.inventory i o q } := by
  simp [addStock, not_le.mpr hq, h, ht]

theorem addStock_ok_shape {db : DB} {i o q : Int} {u : Option Int} {db' : DB}
    (h : addStock db i o q u = .ok db') :
    0 < q ∧ (∃ ow, findActiveOwner db.owners o = some ow ∧ ow.otype = "location") ∧
    db'.owners = db.owners ∧ db'.transfers = db.transfers ∧
    db'.inventory = upsertAdd db.inventory i o q := by
  by_cases h1 : q ≤ 0
  · rw [addStock_invalidQuantity h1] at h
    exact Except.noConfusion h
  cases hfo : findActiveOwner db.owners o with
  | none =>
    rw [addStock_notFound (not_le.mp h1) hfo] at h
    exact Except.noConfusion h
  | some ow =>
    by_cases ht : ow.otype = "location"
    · rw [addStock_ok (not_le.mp h1) hfo ht] at h
      injection h with h'
      subst h'
      exact ⟨not_le.mp h1, ⟨ow, rfl, ht⟩, rfl, rfl, rfl⟩
    · rw [addStock_variantMismatch (not_le.mp h1) hfo ht] at h
      exact Except.noConfusion h

theorem adjustInventory_zeroDelta {db : DB} {i o : Int} {n : String}
    {u : Option Int} : adjustInventory db i o 0 n u = .error .zeroDelta := by
  simp [adjustInventory]

theorem adjustInventory_invalidAdjustment {db : DB} {i o d : Int} {n : String}
    {u : Option Int} (hd : d ≠ 0) (h : getQty db.inventory i o + d < 0) :
    adjustInventory db i o d n u = .error .invalidAdjustment := by
  simp [adjustInventory, hd, h]

theorem adjustInventory_toZero {db : DB} {i o d : Int} {n : String}
    {u : Option Int} (hd : d ≠ 0) (h : getQty db.inventory i o + d = 0) :
    adjustInventory db i o d n u =
      .ok { db with inventory := deleteRow db.inventory i o } := by
  have h0 : ¬ (getQty db.inventory i o + d < 0) := by omega
  simp [adjustInventory, hd, h0, h]

theorem adjustInventory_insert {db : DB} {i o d : Int} {n : String}
    {u : Option Int} (hd : d ≠ 0) (hc : getQty db.inventory i o = 0)
    (hpos : 0 < d) :
    adjustInventory db i o d n u =
      .ok { db with
        inventory := insertRow db.inventory i o (getQty db.inventory i o + d) } := by
  have h0 : ¬ (getQty db.inventory i o + d < 0) := by omega
  have h1 : ¬ (getQty db.inventory i o + d = 0) := by omega
  simp [adjustInventory, hd, h0, h1, hc]
  omega

theorem adjustInventory_update {db : DB} {i o d : Int} {n : String}
    {u : Option Int} (hd : d ≠ 0) (hc : getQty db.inventory i o ≠ 0)
    (h0 : 0 ≤ getQty db.inventory i o + d)
    (h1 : getQty db.inventory i o + d ≠ 0) :
    adjustInventory db i o d n u =
      .ok { db with
        inventory := updateRow db.inventory i o (getQty db.inventory i o + d) } := by
  simp [adjustInventory, hd, not_lt.mpr h0, h1, hc]

theorem adjustInventory_ok_shape {db : DB} {i o d : Int} {n : String}
    {u : Option Int} {db' : DB}
    (h : adjustInventory db i o d n u = .ok db') :
    d ≠ 0 ∧ 0 ≤ getQty db.inventory i o + d ∧
    db'.owners = db.owners ∧ db'.transfers = db.transfers ∧
    db'.inventory =
      (if getQty db.inventory i o + d = 0 then deleteRow db.inventory i o
       else if getQty db.inventory i o = 0 then
         insertRow db.inventory i o (getQty db.inventory i o + d)
       else updateRow db.inventory i o (getQty db.inventory i o + d)) := by
  by_cases hd : d = 0
  · subst hd
    rw [adjustInventory_zeroDelta] at h
    exact Except.noConfusion h
  by_cases h0 : getQty db.inventory i o + d < 0
  · rw [adjustInventory_invalidAdjustment hd h0] at h
    exact Except.noConfusion h
  by_cases h1 : getQty db.inventory i o + d = 0
  · rw [adjustInventory_toZero hd h1] at h
    injection h with h'
    subst h'
    refine ⟨hd, by omega, rfl, rfl, ?_⟩
    rw [if_pos h1]
  by_cases hc : getQty db.inventory i o = 0
  · have hpos : 0 < d := by omega
    rw [adjustInventory_insert hd hc hpos] at h
    injection h with h'
    subst h'
    refine ⟨hd, by omega, rfl, rfl, ?_⟩
    rw [if_neg h1, if_pos hc]
  · rw [adjustInventory_update hd hc (by omega) h1] at h
    injection h with h'
    subst h'
    refine ⟨hd, by omega, rfl, rfl, ?_⟩
    rw [if_neg h1, if_neg hc]

theorem ownerInvCount_pos_iff {inv : List InvRow} {id : Int} :
    0 < ownerInvCount inv id ↔ ∃ r ∈ inv, r.owner = id := by
  rw [ownerInvCount, List.length_pos]
  constructor
  · intro hne
    rcases List.exists_mem_of_ne_nil _ hne with ⟨r, hr⟩
    rcases List.mem_filter.mp hr with ⟨hmem, hp⟩
    exact ⟨r, hmem, by simpa using hp⟩
  · rintro ⟨r, hr, ho⟩ hnil
    have hm : r ∈ List.filter (fun r => r.owner == id) inv :=
      List.mem_filter.mpr ⟨hr, by simpa using ho⟩
    rw [hnil] at hm
    cases hm

theorem deleteOwner_has {db : DB} {id : Int} {now : Nat}
    (h : ∃ r ∈ db.inventory, r.owner = id) :
    deleteOwner db id now = .error .ownerHasInventory := by
  rw [deleteOwner, if_pos (ownerInvCount_pos_iff.mpr h)]

theorem deleteOwner_ok {db : DB} {id : Int} {now : Nat}
    (h : ¬ ∃ r ∈ db.inventory, r.owner = id) :
    deleteOwner db id now =
      .ok { db with owners := db.owners.map (fun o =>
        if o.id == id && o.deletedAt == none
          then { o with deletedAt := some now } else o) } := by
  rw [deleteOwner, if_neg (fun hc => h (ownerInvCount_pos_iff.mp hc))]

/-! ### Invariant preservation by the operations -/

theorem invOk_transfer_ok {db db' : DB} {i f t q : Int} {n : String}
    {a : Option Int} {tr : Transfer}
    (hInv : InvOk db.inventory)
    (h : createTransfer db i f t q n a = .ok (db', tr)) :
    InvOk db'.inventory := by
  obtain ⟨h1, h2, h3, _, _, _, hinv⟩ := createTransfer_ok_shape h
  rw [hinv]
  refine invOk_upsertAdd h2 ?_
  by_cases hz : getQty db.inventory i f - q = 0
  · rw [if_pos hz]
    exact invOk_deleteRow hInv
  · rw [if_neg hz]
    exact invOk_updateRow (by omega) hInv

theorem invOk_addStock_ok {db db' : DB} {i o q : Int} {u : Option Int}
    (hInv : InvOk db.inventory) (h : addStock db i o q u = .ok db') :
    InvOk db'.inventory := by
  obtain ⟨hq, _, _, _, hinv⟩ := addStock_ok_shape h
  rw [hinv]
  exact invOk_upsertAdd hq hInv

theorem invOk_adjust_ok {db db' : DB} {i o d : Int} {n : String} {u : Option Int}
    (hInv : InvOk db.inventory) (h : adjustInventory db i o d n u = .ok db') :
    InvOk db'.inventory := by
  obtain ⟨hd, h0, _, _, hinv⟩ := adjustInventory_ok_shape h
  rw [hinv]
  by_cases h1 : getQty db.inventory i o + d = 0
  · rw [if_pos h1]
    exact invOk_deleteRow hInv
  by_cases hc : getQty db.inventory i o = 0
  · rw [if_neg h1, if_pos hc]
    exact invOk_insertRow (by omega) (hasRow_false_of_getQty_zero hInv.1 hc) hInv
  · rw [if_neg h1, if_neg hc]
    exact invOk_updateRow (by omega) hInv

theorem invOk_transferStep {db : DB} {i f t q : Int} {n : String} {a : Option Int}
    (h : InvOk db.inventory) : InvOk (transferStep db i f t q n a).inventory := by
  rw [transferStep]
  cases hct : createTransfer db i f t q n a with
  | ok p =>
    obtain ⟨db', tr⟩ := p
    exact invOk_transfer_ok h hct
  | error e => exact h

theorem invOk_addStockStep {db : DB} {i o q : Int} {u : Option Int}
    (h : InvOk db.inventory) : InvOk (addStockStep db i o q u).inventory := by
  rw [addStockStep]
  cases hct : addStock db i o q u with
  | ok db' => exact invOk_addStock_ok h hct
  | error e => exact h

theorem invOk_adjustStep {db : DB} {i o d : Int} {n : String} {u : Option Int}
    (h : InvOk db.inventory) : InvOk (adjustStep db i o d n u).inventory := by
  rw [adjustStep]
  cases hct : adjustInventory db i o d n u with
  | ok db' => exact invOk_adjust_ok h hct
  | error e => exact h

theorem invOk_opStep {db db' : DB} (h : InvOk db.inventory)
    (hs : OpStep db db') : InvOk db'.inventory := by
  cases hs with
  | add i o q u => exact invOk_addStockStep h
  | adjust i o d n u => exact invOk_adjustStep h
  | transfer i f t q n u => exact invOk_transferStep h

/-! ### Item totals (conservation) -/

theorem itemTotal_nil (i : Int) : itemTotal [] i = 0 := rfl

theorem itemTotal_cons {r : InvRow} {l : List InvRow} {i : Int} :
    itemTotal (r :: l) i = (if r.item = i then r.qty else 0) + itemTotal l i := by
  simp [itemTotal]

theorem itemTotal_append {l1 l2 : List InvRow} {i : Int} :
    itemTotal (l1 ++ l2) i = itemTotal l1 i + itemTotal l2 i := by
  simp [itemTotal]

theorem updateRow_eq_self_of_hasRow_false {inv : List InvRow} {i o q : Int}
    (h : hasRow inv i o = false) : updateRow inv i o q = inv := by
  rw [updateRow]
  exact map_keyMatch_eq_self h

theorem itemTotal_deleteRow {inv : List InvRow} {i o j : Int}
    (hnd : (inv.map keyOf).Nodup) :
    itemTotal (deleteRow inv i o) j
      = itemTotal inv j - (if i = j then getQty inv i o else 0) := by
  induction inv with
  | nil => simp [deleteRow, itemTotal_nil, getQty_nil]
  | cons r l ih =>
    rw [List.map_cons, List.nodup_cons] at hnd
    obtain ⟨hnotmem, hnd'⟩ := hnd
    by_cases h1 : keyMatch i o r = true
    · obtain ⟨hi, ho⟩ := keyMatch_iff.mp h1
      have hnm : hasRow l i o = false :=
        hasRow_false_iff_key_not_mem.mpr (by rwa [keyMatch_keyOf.mp h1] at hnotmem)
      rw [deleteRow_cons, if_pos h1, deleteRow_eq_self_of_hasRow_false hnm,
        itemTotal_cons, getQty_cons, if_pos h1, hi]
      by_cases hij : i = j
      · simp only [if_pos hij]
        ring
      · simp only [if_neg hij]
        ring
    · rw [deleteRow_cons, if_neg h1, itemTotal_cons, itemTotal_cons,
        getQty_cons, if_neg h1, ih hnd']
      ring

theorem itemTotal_updateRow {inv : List InvRow} {i o q j : Int}
    (hnd : (inv.map keyOf).Nodup) (hr : hasRow inv i o = true) :
    itemTotal (updateRow inv i o q) j
      = itemTotal inv j - (if i = j then getQty inv i o else 0)
        + (if i = j then q else 0) := by
  induction inv with
  | nil => simp [hasRow_nil] at hr
  | cons r l ih =>
    rw [List.map_cons, List.nodup_cons] at hnd
    obtain ⟨hnotmem, hnd'⟩ := hnd
    by_cases h1 : keyMatch i o r = true
    · obtain ⟨hi, ho⟩ := keyMatch_iff.mp h1
      have hnm : hasRow l i o = false :=
        hasRow_false_iff_key_not_mem.mpr (by rwa [keyMatch_keyOf.mp h1] at hnotmem)
      rw [updateRow_cons, if_pos h1, updateRow_eq_self_of_hasRow_false hnm,
        itemTotal_cons, itemTotal_cons, getQty_cons, if_pos h1]
      have e1 : ({ r with qty := q } : InvRow).item = r.item := rfl
      have e2 : ({ r with qty := q } : InvRow).qty = q := rfl
      rw [e1, e2, hi]
      by_cases hij : i = j
      · simp only [if_pos hij]
        ring
      · simp only [if_neg hij]
        ring
    · have hl : hasRow l i o = true := by
        rw [hasRow_cons] at hr
        rcases (by simpa using hr : keyMatch i o r = true ∨ hasRow l i o = true)
          with hk | hk
        · exact absurd hk h1
        · exact hk
      rw [updateRow_cons, if_neg h1, itemTotal_cons, itemTotal_cons,
        getQty_cons, if_neg h1, ih hnd' hl]
      ring

theorem itemTotal_addMap {inv : List InvRow} {i o q j : Int}
    (hnd : (inv.map keyOf).Nodup) (hr : hasRow inv i o = true) :
    itemTotal (inv.map (fun r =>
        if keyMatch i o r = true then { r with qty := r.qty + q } else r)) j
      = itemTotal inv j + (if i = j then q else 0) := by
  induction inv with
  | nil => simp [hasRow_nil] at hr
  | cons r l ih =>
    rw [List.map_cons, List.nodup_cons] at hnd
    obtain ⟨hnotmem, hnd'⟩ := hnd
    by_cases h1 : keyMatch i o r = true
    · obtain ⟨hi, ho⟩ := keyMatch_iff.mp h1
      have hnm : hasRow l i o = false :=
        hasRow_false_iff_key_not_mem.mpr (by rwa [keyMatch_keyOf.mp h1] at hnotmem)
      rw [List.map_cons, if_pos h1, map_keyMatch_eq_self hnm,
        itemTotal_cons, itemTotal_cons]
      have e1 : ({ r with qty := r.qty + q } : InvRow).item = r.item := rfl
      have e2 : ({ r with qty := r.qty + q } : InvRow).qty = r.qty + q := rfl
      rw [e1, e2, hi]
      by_cases hij : i = j
      · simp only [if_pos hij]
        ring
      · simp only [if_neg hij]
        ring
    · have hl : hasRow l i o = true := by
        rw [hasRow_cons] at hr
        rcases (by simpa using hr : keyMatch i o r = true ∨ hasRow l i o = true)
          with hk | hk
        · exact absurd hk h1
        · exact hk
      rw [List.map_cons, if_neg h1, itemTotal_cons, itemTotal_cons, ih hnd' hl]
      ring

theorem itemTotal_insertRow {inv : List InvRow} {i o q j : Int} :
    itemTotal (insertRow inv i o q) j
      = itemTotal inv j + (if i = j then q else 0) := by
  rw [insertRow, itemTotal_append, itemTotal_cons, itemTotal_nil]
  simp

theorem itemTotal_upsertAdd {inv : List InvRow} {i o q j : Int}
    (hnd : (inv.map keyOf).Nodup) :
    itemTotal (upsertAdd inv i o q) j
      = itemTotal inv j + (if i = j then q else 0) := by
  rw [upsertAdd]
  by_cases hb : hasRow inv i o = true
  · rw [if_pos hb, itemTotal_addMap hnd hb]
  · rw [if_neg hb]
    show itemTotal (insertRow inv i o q) j = _
    rw [itemTotal_insertRow]

theorem itemTotal_transfer_ok {db db' : DB} {i f t q : Int} {n : String}
    {a : Option Int} {tr : Transfer} {j : Int}
    (hInv : InvOk db.inventory)
    (h : createTransfer db i f t q n a = .ok (db', tr)) :
    itemTotal db'.inventory j = itemTotal db.inventory j := by
  obtain ⟨h1, h2, h3, _, _, _, hinv⟩ := createTransfer_ok_shape h
  rw [hinv]
  by_cases hz : getQty db.inventory i f - q = 0
  · rw [if_pos hz, itemTotal_upsertAdd (nodup_keys_deleteRow hInv.2),
      itemTotal_deleteRow hInv.2]
    by_cases hij : i = j
    · simp only [if_pos hij]
      omega
    · simp only [if_neg hij]
      ring
  · rw [if_neg hz, itemTotal_upsertAdd (nodup_keys_updateRow hInv.2),
      itemTotal_updateRow hInv.2 (hasRow_of_getQty_ne_zero (by omega))]
    by_cases hij : i = j
    · simp only [if_pos hij]
      ring
    · simp only [if_neg hij]
      ring

/-! ### At most one row per key -/

theorem count_le_one_of_nodup_keys {inv : List InvRow}
    (hnd : (inv.map keyOf).Nodup) (i o : Int) :
    (inv.filter (keyMatch i o)).length ≤ 1 := by
  induction inv with
  | nil => simp
  | cons r l ih =>
    rw [List.map_cons, List.nodup_cons] at hnd
    obtain ⟨hnm, hnd'⟩ := hnd
    rw [List.filter_cons]
    by_cases h1 : keyMatch i o r = true
    · rw [if_pos h1]
      have hf : hasRow l i o = false :=
        hasRow_false_iff_key_not_mem.mpr (by rwa [keyMatch_keyOf.mp h1] at hnm)
      have hfilter : l.filter (keyMatch i o) = [] := by
        rw [List.filter_eq_nil]
        intro a ha
        exact fun hp =>
          (List.any_eq_false.mp (by simpa [hasRow] using hf) a ha) hp
      simp [hfilter]
    · rw [if_neg h1]
      exact ih hnd'

/-! ### Rollback: a failing operation leaves the state unchanged -/

theorem transferStep_eq_of_error {db : DB} {i f t q : Int} {n : String}
    {a : Option Int} {e : StoreErr}
    (h : createTransfer db i f t q n a = .error e) :
    transferStep db i f t q n a = db := by
  rw [transferStep, h]

theorem addStockStep_eq_of_error {db : DB} {i o q : Int} {u : Option Int}
    {e : StoreErr} (h : addStock db i o q u = .error e) :
    addStockStep db i o q u = db := by
  rw [addStockStep, h]

theorem adjustStep_eq_of_error {db : DB} {i o d : Int} {n : String}
    {u : Option Int} {e : StoreErr}
    (h : adjustInventory db i o d n u = .error e) :
    adjustStep db i o d n u = db := by
  rw [adjustStep, h]

theorem deleteOwnerStep_eq_of_error {db : DB} {id : Int} {now : Nat}
    {e : StoreErr} (h : deleteOwner db id now = .error e) :
    deleteOwnerStep db id now = db := by
  rw [deleteOwnerStep, h]

/-! ### Chains of successful transfers -/

theorem transferChain_itemTotal {reqs : List TransferReq} {db db' : DB} {j : Int}
    (hInv : InvOk db.inventory) (h : transferChain db reqs = some db') :
    itemTotal db'.inventory j = itemTotal db.inventory j := by
  induction reqs generalizing db with
  | nil =>
    rw [transferChain] at h
    injection h with h'
    rw [h']
  | cons a rest ih =>
    rw [transferChain] at h
    cases hct : createTransfer db a.item a.src a.dst a.qty a.note a.actor with
    | error e =>
      rw [hct] at h
      exact Option.noConfusion h
    | ok p =>
      obtain ⟨db1, tr⟩ := p
      rw [hct] at h
      rw [ih (invOk_transfer_ok hInv hct) h, itemTotal_transfer_ok hInv hct]

/-! ### Soft-deleting an owner -/

theorem map_owner_id_softDelete {owners : List Owner} {id : Int} {now : Nat} :
    (owners.map (fun o => if o.id == id && o.deletedAt == none
        then { o with deletedAt := some now } else o)).map Owner.id
      = owners.map Owner.id := by
  induction owners with
  | nil => rfl
  | cons o l ih =>
    simp only [List.map_cons, ih]
    by_cases h : (o.id == id && o.deletedAt == none) = true
    · rw [if_pos h]
    · rw [if_neg h]

/-! ### Claim theorems -/

/-- C1: whenever the source holding of (item, fromOwner) is at least
Q > 0 and fromOwner differs from toOwner, CreateTransfer succeeds and
afterwards the source holding is reduced by exactly Q (its row deleted,
not left at zero, exactly when the remainder is zero), the destination
holding is increased by exactly Q (its row present afterwards, created
if absent before), and exactly one new audit entry carrying the given
item, source, destination, quantity, note and actor is appended. -/
theorem createTransfer_spec (db : DB) (item src dst q : Int) (note : String)
    (actor : Option Int) (hq : 0 < q) (hne : src ≠ dst)
    (hav : q ≤ getQty db.inventory item src) :
    ∃ db' tr, createTransfer db item src dst q note actor = .ok (db', tr) ∧
      getQty db'.inventory item src = getQty db.inventory item src - q ∧
      (getQty db.inventory item src = q → hasRow db'.inventory item src = false) ∧
      (q < getQty db.inventory item src → hasRow db'.inventory item src = true) ∧
      getQty db'.inventory item dst = getQty db.inventory item dst + q ∧
      hasRow db'.inventory item dst = true ∧
      db'.transfers = db.transfers ++ [⟨item, src, dst, q, note, actor⟩] ∧
      tr = ⟨item, src, dst, q, note, actor⟩ ∧
      db'.owners = db.owners := by
  have hk1 : ((item, dst) : Int × Int) ≠ (item, src) := by
    simp [Prod.ext_iff]
    intro hc
    exact hne hc.symm
  have hk2 : ((item, src) : Int × Int) ≠ (item, dst) := by
    simp [Prod.ext_iff]
    intro hc
    exact hne hc
  refine ⟨_, _, createTransfer_ok hne hq hav, ?_, ?_, ?_, ?_, ?_, rfl, rfl, rfl⟩
  · show getQty (upsertAdd _ item dst q) item src = _
    rw [getQty_upsertAdd_of_ne hk1]
    by_cases hz : getQty db.inventory item src - q = 0
    · rw [if_pos hz, getQty_deleteRow_self]
      omega
    · rw [if_neg hz, getQty_updateRow_self (hasRow_of_getQty_ne_zero (by omega))]
  · intro heq
    show hasRow (upsertAdd _ item dst q) item src = false
    rw [hasRow_upsertAdd_of_ne hk1, if_pos (by omega : getQty db.inventory item src - q = 0)]
    exact hasRow_deleteRow_self
  · intro hlt
    show hasRow (upsertAdd _ item dst q) item src = true
    rw [hasRow_upsertAdd_of_ne hk1, if_neg (by omega : ¬ getQty db.inventory item src - q = 0),
      hasRow_updateRow]
    exact hasRow_of_getQty_ne_zero (by omega)
  · show getQty (upsertAdd _ item dst q) item dst = _
    rw [getQty_upsertAdd_self]
    by_cases hz : getQty db.inventory item src - q = 0
    · rw [if_pos hz, getQty_deleteRow_of_ne hk2]
    · rw [if_neg hz, getQty_updateRow_of_ne hk2]
  · exact hasRow_upsertAdd_self

/-- Witness for C1: transferring all 5 Widgets (item 10) from owner 1 to
owner 2 succeeds, empties the source row and leaves the destination
holding 5. -/
theorem createTransfer_spec_witness :
    (0 : Int) < 5 ∧ (1 : Int) ≠ 2 ∧
    (5 : Int) ≤ getQty (DB.mk [] [⟨10, 1, 5⟩] []).inventory 10 1 ∧
    ∃ db' tr,
      createTransfer (DB.mk [] [⟨10, 1, 5⟩] []) 10 1 2 5 "move" (some 7)
        = .ok (db', tr) ∧
      getQty db'.inventory 10 1 = 0 ∧ hasRow db'.inventory 10 1 = false ∧
      getQty db'.inventory 10 2 = 5 ∧
      db'.transfers = [⟨10, 1, 2, 5, "move", some 7⟩] := by
  refine ⟨by decide, by decide, by decide, ?_⟩
  obtain ⟨db', tr, h1, h2, h3, _, h5, _, h7, _, _⟩ :=
    createTransfer_spec (DB.mk [] [⟨10, 1, 5⟩] []) 10 1 2 5 "move" (some 7)
      (by decide) (by decide) (by decide)
  refine ⟨db', tr, h1, ?_, h3 (by decide), ?_, ?_⟩
  · rw [h2]
    decide
  · rw [h5]
    decide
  · rw [h7]
    rfl

/-- C2: in every state reachable from an empty ledger by AddStock,
AdjustInventory and CreateTransfer invocations (successful or failed),
every (item, owner) pair has at most one holding row and every stored
quantity is strictly positive, so a holding row exists iff its quantity
is a strictly positive integer — no operation leaves a zero or negative
row. -/
theorem holdings_invariant (db : DB) (h : Reachable db) :
    (∀ i o : Int, (db.inventory.filter (keyMatch i o)).length ≤ 1) ∧
    (∀ r ∈ db.inventory, 0 < r.qty) := by
  have hInv : InvOk db.inventory := by
    induction h with
    | init db0 h0 =>
      rw [h0]
      exact ⟨fun r hr => absurd hr (List.not_mem_nil r), List.nodup_nil⟩
    | step db0 db1 hr hs ih => exact invOk_opStep ih hs
  exact ⟨fun i o => count_le_one_of_nodup_keys hInv.2 i o, hInv.1⟩

/-- Witness for C2: a state reached from the empty ledger by one AddStock
and one CreateTransfer satisfies the invariant. -/
theorem holdings_invariant_witness :
    (∀ i o : Int,
      ((transferStep (addStockStep (DB.mk [⟨1, "Storage", "location", none⟩] [] [])
          2 1 5 none) 2 1 3 4 "out" none).inventory.filter (keyMatch i o)).length ≤ 1) ∧
    (∀ r ∈ (transferStep (addStockStep (DB.mk [⟨1, "Storage", "location", none⟩] [] [])
        2 1 5 none) 2 1 3 4 "out" none).inventory, 0 < r.qty) :=
  holdings_invariant _
    (Reachable.step _ _
      (Reachable.step _ _ (Reachable.init _ rfl) (OpStep.add _ 2 1 5 none))
      (OpStep.transfer _ 2 1 3 4 "out" none))

/-- C3: CreateTransfer fails with SelfTransfer exactly when source equals
destination (regardless of state), with InvalidQuantity exactly when the
source differs and the quantity is non-positive, and with
InsufficientQuantity exactly when the source holding (0 if absent) is
smaller than the positive requested quantity; it fails in no other case,
and every failure leaves the whole state unchanged. -/
theorem createTransfer_errors (db : DB) (item src dst q : Int) (note : String)
    (actor : Option Int) :
    (createTransfer db item src dst q note actor = .error .selfTransfer ↔
      src = dst) ∧
    (createTransfer db item src dst q note actor = .error .invalidQuantity ↔
      src ≠ dst ∧ q ≤ 0) ∧
    (createTransfer db item src dst q note actor = .error .insufficientQuantity ↔
      src ≠ dst ∧ 0 < q ∧ getQty db.inventory item src < q) ∧
    ((∃ e, createTransfer db item src dst q note actor = .error e) ↔
      (src = dst ∨ q ≤ 0 ∨ getQty db.inventory item src < q)) ∧
    ((∃ e, createTransfer db item src dst q note actor = .error e) →
      transferStep db item src dst q note actor = db) := by
  by_cases h1 : src = dst
  · rw [createTransfer_self h1]
    exact ⟨by simp [h1], by simp [h1], by simp [h1], by simp [h1],
      fun _ => transferStep_eq_of_error (createTransfer_self h1)⟩
  by_cases h2 : q ≤ 0
  · rw [createTransfer_invalidQuantity h1 h2]
    exact ⟨by simp [h1], by simp [h1, h2], by simp [h1, not_lt.mpr h2],
      by simp [h2],
      fun _ => transferStep_eq_of_error (createTransfer_invalidQuantity h1 h2)⟩
  by_cases h3 : getQty db.inventory item src < q
  · rw [createTransfer_insufficient h1 (not_le.mp h2) h3]
    exact ⟨by simp [h1], by simp [h1, h2], by simp [h1, not_le.mp h2, h3],
      by simp [h3],
      fun _ => transferStep_eq_of_error (createTransfer_insufficient h1 (not_le.mp h2) h3)⟩
  · rw [createTransfer_ok h1 (not_le.mp h2) (not_lt.mp h3)]
    refine ⟨by simp [h1], by simp [h1, h2], by simp [h1, h3], by simp [h1, h2, h3], ?_⟩
    rintro ⟨e, he⟩
    exact absurd he (by simp)

/-- Witness for C3 on a concrete state: transferring 10 out of a holding
of 5 is rejected as insufficient and changes nothing. -/
theorem createTransfer_errors_witness :
    (createTransfer (DB.mk [] [⟨10, 1, 5⟩] []) 10 1 2 10 "" none
      = .error .insufficientQuantity ↔
      (1 : Int) ≠ 2 ∧ (0 : Int) < 10 ∧
        getQty (DB.mk [] [⟨10, 1, 5⟩] []).inventory 10 1 < 10) ∧
    transferStep (DB.mk [] [⟨10, 1, 5⟩] []) 10 1 2 10 "" none
      = DB.mk [] [⟨10, 1, 5⟩] [] := by
  obtain ⟨-, -, hiff, -, hstep⟩ :=
    createTransfer_errors (DB.mk [] [⟨10, 1, 5⟩] []) 10 1 2 10 "" none
  exact ⟨hiff, hstep ⟨.insufficientQuantity,
    hiff.mpr ⟨by decide, by decide, by decide⟩⟩⟩

/-- C4: a sequence of successful CreateTransfer operations (no AddStock,
no AdjustInventory) conserves, for every item, the total quantity over
all owners, in any state satisfying the inventory schema constraints. -/
theorem transfer_conservation (db db' : DB) (reqs : List TransferReq) (i : Int)
    (hInv : InvOk db.inventory) (h : transferChain db reqs = some db') :
    itemTotal db'.inventory i = itemTotal db.inventory i :=
  transferChain_itemTotal hInv h

/-- Witness for C4: two successful transfers moving item 1 around three
owners leave its total at 5. -/
theorem transfer_conservation_witness :
    InvOk (DB.mk [] [⟨1, 1, 5⟩] []).inventory ∧
    ∃ db', transferChain (DB.mk [] [⟨1, 1, 5⟩] [])
        [⟨1, 1, 2, 3, "", none⟩, ⟨1, 2, 3, 1, "", none⟩] = some db' ∧
      itemTotal db'.inventory 1 = itemTotal (DB.mk [] [⟨1, 1, 5⟩] []).inventory 1 := by
  refine ⟨by decide, ?_⟩
  cases hch : transferChain (DB.mk [] [⟨1, 1, 5⟩] [])
      [⟨1, 1, 2, 3, "", none⟩, ⟨1, 2, 3, 1, "", none⟩] with
  | none => exact absurd hch (by decide)
  | some db' =>
    exact ⟨db', rfl,
      transfer_conservation _ db' [⟨1, 1, 2, 3, "", none⟩, ⟨1, 2, 3, 1, "", none⟩] 1
        (by decide) hch⟩

/-- C5: for current quantity q (0 when the row is absent) and nonzero
delta d, AdjustInventory fails with InvalidAdjustment and changes nothing
when q + d < 0; otherwise it succeeds and afterwards the row is removed
when q + d = 0, a new row of quantity d is created when q = 0 and d > 0,
and the row's quantity becomes q + d otherwise. States satisfy the
inventory schema constraints. -/
theorem adjustInventory_spec (db : DB) (item owner d : Int) (note : String)
    (user : Option Int) (hInv : InvOk db.inventory) (hd : d ≠ 0) :
    (getQty db.inventory item owner + d < 0 →
      adjustInventory db item owner d note user = .error .invalidAdjustment ∧
      adjustStep db item owner d note user = db) ∧
    (0 ≤ getQty db.inventory item owner + d →
      ∃ db', adjustInventory db item owner d note user = .ok db' ∧
        db'.owners = db.owners ∧ db'.transfers = db.transfers ∧
        (getQty db.inventory item owner + d = 0 →
          hasRow db'.inventory item owner = false) ∧
        (getQty db.inventory item owner = 0 → 0 < d →
          hasRow db'.inventory item owner = true ∧
          getQty db'.inventory item owner = d) ∧
        (getQty db.inventory item owner ≠ 0 →
          getQty db.inventory item owner + d ≠ 0 →
          hasRow db'.inventory item owner = true ∧
          getQty db'.inventory item owner
            = getQty db.inventory item owner + d)) := by
  constructor
  · intro hneg
    exact ⟨adjustInventory_invalidAdjustment hd hneg,
      adjustStep_eq_of_error (adjustInventory_invalidAdjustment hd hneg)⟩
  · intro hok
    by_cases h1 : getQty db.inventory item owner + d = 0
    · refine ⟨_, adjustInventory_toZero hd h1, rfl, rfl,
        fun _ => hasRow_deleteRow_self, ?_, ?_⟩
      · intro hc hdp
        exact absurd h1 (by omega)
      · intro hc h1'
        exact absurd h1 h1'
    by_cases hc : getQty db.inventory item owner = 0
    · have hdp : 0 < d := by omega
      have hnr : hasRow db.inventory item owner = false :=
        hasRow_false_of_getQty_zero hInv.1 hc
      refine ⟨_, adjustInventory_insert hd hc hdp, rfl, rfl, ?_, ?_, ?_⟩
      · intro h0
        exact absurd h0 (by omega)
      · intro _ _
        constructor
        · show hasRow (insertRow db.inventory item owner _) item owner = true
          rw [insertRow, hasRow_append_single, hnr]
          simp [keyMatch]
        · show getQty (insertRow db.inventory item owner _) item owner = d
          rw [insertRow, getQty_append_single_self hnr]
          omega
      · intro hc' _
        exact absurd hc hc'
    · have hpos : 0 < getQty db.inventory item owner + d := by omega
      refine ⟨_, adjustInventory_update hd hc hok h1, rfl, rfl, ?_, ?_, ?_⟩
      · intro h0
        exact absurd h0 h1
      · intro hc' _
        exact absurd hc' hc
      · intro _ _
        constructor
        · show hasRow (updateRow db.inventory item owner _) item owner = true
          rw [hasRow_updateRow]
          exact hasRow_of_getQty_ne_zero hc
        · exact getQty_updateRow_self (hasRow_of_getQty_ne_zero hc)

/-- Witness for C5: adjusting a holding of 10 by −3 succeeds and leaves 7
(spec scenario D). -/
theorem adjustInventory_spec_witness :
    InvOk (DB.mk [] [⟨1, 1, 10⟩] []).inventory ∧ (-3 : Int) ≠ 0 ∧
    ∃ db', adjustInventory (DB.mk [] [⟨1, 1, 10⟩] []) 1 1 (-3) "lost" none
        = .ok db' ∧
      getQty db'.inventory 1 1 = 7 ∧ db'.transfers = [] := by
  refine ⟨by decide, by decide, ?_⟩
  obtain ⟨-, hsucc⟩ :=
    adjustInventory_spec (DB.mk [] [⟨1, 1, 10⟩] []) 1 1 (-3) "lost" none
      (by decide) (by decide)
  obtain ⟨db', hok, -, htr, -, -, hupd⟩ := hsucc (by decide)
  obtain ⟨-, hq⟩ := hupd (by decide) (by decide)
  refine ⟨db', hok, ?_, htr⟩
  rw [hq]
  decide

/-- C6: with a positive quantity, AddStock fails with NotFound when the
owner is missing or soft-deleted and with OwnerVariantMismatch when the
owner is not a location; every failure leaves the state unchanged; and
AddStock succeeds exactly when the quantity is positive and the target is
an existing, non-deleted location. -/
theorem addStock_spec (db : DB) (item owner q : Int) (user : Option Int) :
    (addStock db item owner q user = .error .notFound ↔
      0 < q ∧ findActiveOwner db.owners owner = none) ∧
    (addStock db item owner q user = .error .ownerVariantMismatch ↔
      0 < q ∧ ∃ ow, findActiveOwner db.owners owner = some ow ∧
        ow.otype ≠ "location") ∧
    ((∃ e, addStock db item owner q user = .error e) →
      addStockStep db item owner q user = db) ∧
    ((∃ db', addStock db item owner q user = .ok db') ↔
      0 < q ∧ ∃ ow, findActiveOwner db.owners owner = some ow ∧
        ow.otype = "location") := by
  by_cases h1 : q ≤ 0
  · rw [addStock_invalidQuantity h1]
    exact ⟨by simp [not_lt.mpr h1], by simp [not_lt.mpr h1],
      fun _ => addStockStep_eq_of_error (addStock_invalidQuantity h1),
      by simp [not_lt.mpr h1]⟩
  · have hq : 0 < q := not_le.mp h1
    cases hfo : findActiveOwner db.owners owner with
    | none =>
      rw [addStock_notFound hq hfo]
      exact ⟨by simp [hq], by simp,
        fun _ => addStockStep_eq_of_error (addStock_notFound hq hfo),
        by simp⟩
    | some ow =>
      by_cases ht : ow.otype = "location"
      · rw [addStock_ok hq hfo ht]
        refine ⟨by simp, by simp [ht], ?_, by simp [hq, ht]⟩
        rintro ⟨e, he⟩
        exact absurd he (by simp)
      · rw [addStock_variantMismatch hq hfo ht]
        exact ⟨by simp, by simp [hq, ht],
          fun _ => addStockStep_eq_of_error (addStock_variantMismatch hq hfo ht),
          by simp [ht]⟩

/-- Witness for C6: adding stock to person Alice fails with
OwnerVariantMismatch and the state is unchanged (spec scenario E). -/
theorem addStock_spec_witness :
    (addStock (DB.mk [⟨2, "Alice", "person", none⟩] [] []) 1 2 10 none
      = .error .ownerVariantMismatch ↔
      (0 : Int) < 10 ∧
        ∃ ow, findActiveOwner [⟨2, "Alice", "person", none⟩] 2 = some ow ∧
          ow.otype ≠ "location") ∧
    addStockStep (DB.mk [⟨2, "Alice", "person", none⟩] [] []) 1 2 10 none
      = DB.mk [⟨2, "Alice", "person", none⟩] [] [] := by
  obtain ⟨-, hiff, hstep, -⟩ :=
    addStock_spec (DB.mk [⟨2, "Alice", "person", none⟩] [] []) 1 2 10 none
  refine ⟨hiff, hstep ⟨.ownerVariantMismatch, hiff.mpr ?_⟩⟩
  exact ⟨by decide, ⟨2, "Alice", "person", none⟩, by decide, by decide⟩

/-- C7: AddStock and AdjustInventory never touch the transfers audit
table — after any invocation of either, successful or failed, the
transfers table is exactly what it was before. -/
theorem ledger_only_no_audit (db : DB) (i o q d : Int) (n : String)
    (u : Option Int) :
    (addStockStep db i o q u).transfers = db.transfers ∧
    (adjustStep db i o d n u).transfers = db.transfers := by
  constructor
  · rw [addStockStep]
    cases hct : addStock db i o q u with
    | ok db' => exact (addStock_ok_shape hct).2.2.2.1
    | error e => rfl
  · rw [adjustStep]
    cases hct : adjustInventory db i o d n u with
    | ok db' => exact (adjustInventory_ok_shape hct).2.2.2.1
    | error e => rfl

/-- C8: DeleteOwner fails with OwnerHasInventory and changes nothing
whenever some holding row references the owner; otherwise it succeeds by
soft-deleting: the ledger and audit log are untouched, no owner row is
removed (ids and length unchanged), every active row with the given id
gets its deletion timestamp set, and every other row is kept as is. -/
theorem deleteOwner_spec (db : DB) (id : Int) (now : Nat) :
    ((∃ r ∈ db.inventory, r.owner = id) →
      deleteOwner db id now = .error .ownerHasInventory ∧
      deleteOwnerStep db id now = db) ∧
    ((¬ ∃ r ∈ db.inventory, r.owner = id) →
      ∃ db', deleteOwner db id now = .ok db' ∧
        db'.inventory = db.inventory ∧ db'.transfers = db.transfers ∧
        db'.owners.map Owner.id = db.owners.map Owner.id ∧
        db'.owners.length = db.owners.length ∧
        (∀ o ∈ db.owners, o.id = id → o.deletedAt = none →
          { o with deletedAt := some now } ∈ db'.owners) ∧
        (∀ o ∈ db.owners, o.id ≠ id ∨ o.deletedAt ≠ none →
          o ∈ db'.owners)) := by
  constructor
  · intro hsome
    exact ⟨deleteOwner_has hsome,
      deleteOwnerStep_eq_of_error (deleteOwner_has hsome)⟩
  · intro hnone
    refine ⟨_, deleteOwner_ok hnone, rfl, rfl, map_owner_id_softDelete,
      List.length_map _ _, ?_, ?_⟩
    · intro o ho hid hdel
      have hcond : (o.id == id && o.deletedAt == none) = true := by
        simp [hid, hdel]
      have hmem := List.mem_map_of_mem (fun o : Owner =>
        if o.id == id && o.deletedAt == none
          then { o with deletedAt := some now } else o) ho
      simpa [hcond] using hmem
    · intro o ho hcond
      have hfalse : (o.id == id && o.deletedAt == none) = false := by
        rcases hcond with hc | hc <;> simp [hc]
      have hmem := List.mem_map_of_mem (fun o : Owner =>
        if o.id == id && o.deletedAt == none
          then { o with deletedAt := some now } else o) ho
      simpa [hfalse] using hmem

/-- Witness for C8: deleting owner 1 who holds nothing succeeds and marks
the row deleted at time 5, keeping the row present. -/
theorem deleteOwner_spec_witness :
    (¬ ∃ r ∈ (DB.mk [⟨1, "Storage", "location", none⟩] [] []).inventory,
      r.owner = 1) ∧
    ∃ db', deleteOwner (DB.mk [⟨1, "Storage", "location", none⟩] [] []) 1 5
        = .ok db' ∧
      (⟨1, "Storage", "location", some 5⟩ : Owner) ∈ db'.owners ∧
      db'.owners.length = 1 := by
  refine ⟨by decide, ?_⟩
  obtain ⟨-, hsucc⟩ :=
    deleteOwner_spec (DB.mk [⟨1, "Storage", "location", none⟩] [] []) 1 5
  obtain ⟨db', hok, -, -, -, hlen, hmem, -⟩ := hsucc (by decide)
  exact ⟨db', hok, hmem ⟨1, "Storage", "location", none⟩ (by simp) rfl rfl, hlen⟩

/-- C10: AdjustInventory with delta = 0 is rejected outright ("delta must
be non-zero") and leaves all state unchanged. -/
theorem adjust_zero_delta_rejected (db : DB) (item owner : Int) (note : String)
    (user : Option Int) :
    adjustInventory db item owner 0 note user = .error .zeroDelta ∧
    adjustStep db item owner 0 note user = db :=
  ⟨adjustInventory_zeroDelta, adjustStep_eq_of_error adjustInventory_zeroDelta⟩

end Skladisce
